import Mathlib

/-
  Verification development for the jirafs `TicketFolder` synchronization engine
  (src/jirafs/ticketfolder.py).  The Python source is shallowly embedded below:
  pure fragments become Lean functions, the stateful parts become explicit
  state-passing functions, and the external collaborators (the JIRA client, git,
  the glob matcher, the RST field manager) are modelled at their interface
  boundary, exactly as the design document scopes them.
-/

set_option maxHeartbeats 1000000

namespace Jirafs

/-! ## Python string primitives

The Python `str` operations used by `ticketfolder.py` (`strip`, `replace('\r\n',
'\n')`, `split('\n')`, `startswith`) are translated to executable functions on
the character list of a `String`. -/

/-- Characters removed by Python `str.strip()` (ASCII whitespace). -/
def isWS (c : Char) : Bool :=
  c == ' ' || c == '\t' || c == '\n' || c == '\r' || c == Char.ofNat 11 || c == Char.ofNat 12

/-- Python `str.strip()`: drop whitespace from both ends. -/
def pyStrip (s : String) : String :=
  String.mk (((s.data.dropWhile isWS).reverse.dropWhile isWS).reverse)

/-- Python `str.replace('\r\n', '\n')` on a character list. -/
def replaceCRLF : List Char → List Char
  | [] => []
  | [c] => [c]
  | c1 :: c2 :: rest =>
    if c1 = '\r' ∧ c2 = '\n' then '\n' :: replaceCRLF rest
    else c1 :: replaceCRLF (c2 :: rest)

/-- Python `str.replace('\r\n', '\n')`. -/
def pyReplaceCRLF (s : String) : String := String.mk (replaceCRLF s.data)

/-- Python `str.split('\n')` on a character list (`''.split('\n') == ['']`). -/
def splitNL : List Char → List (List Char)
  | [] => [[]]
  | c :: rest =>
    if c = '\n' then [] :: splitNL rest
    else
      match splitNL rest with
      | [] => [[c]]
      | l :: ls => (c :: l) :: ls

/-- Python `str.split('\n')`. -/
def pySplitLines (s : String) : List String := (splitNL s.data).map String.mk

/-- Python `str.startswith('#')`. -/
def startsWithHash (s : String) : Bool :=
  match s.data with
  | '#' :: _ => true
  | _ => false

/-- Python `str.startswith('.')`. -/
def startsWithDot (s : String) : Bool :=
  match s.data with
  | '.' :: _ => true
  | _ => false

/-! ## Python dict as an association list

Python dicts (insertion ordered, unique keys) are embedded as association
lists: `dictGet` is `dict.get`, `dictSet` is item assignment (replace the
first matching key in place, else append). -/

/-- Python `dict.get(k)`: first binding of `k`, if any. -/
def dictGet {α : Type} : List (String × α) → String → Option α
  | [], _ => none
  | (k', v) :: rest, k => if k' = k then some v else dictGet rest k

/-- Python `d[k] = v`: replace the first binding of `k` in place, else append. -/
def dictSet {α : Type} (k : String) (v : α) : List (String × α) → List (String × α)
  | [] => [(k, v)]
  | (k', v') :: rest => if k' = k then (k, v) :: rest else (k', v') :: dictSet k v rest

/-! ## Issue data

The remote issue as seen through the `IssueTrackerClient` collaborator:
`raw['fields']` / `issue.fields` as a mapping from name to a JSON-ish value,
the attachment list (`filename`, `created` change token, downloadable
`content`), and the comment transcript. -/

/-- Value of an issue field: a string, JSON null, or any other value together
with its Python `six.text_type` rendering. -/
inductive JValue
  | str (s : String)
  | null
  | other (text : String)
deriving DecidableEq

/-- A remote attachment: name, creation change token, downloadable content. -/
structure Attachment where
  filename : String
  created : String
  content : String
deriving DecidableEq

/-- A remote comment. -/
structure IssueComment where
  created : String
  author : String
  body : String
deriving DecidableEq

/-- Snapshot of the remote issue. -/
structure IssueData where
  fields : List (String × JValue)
  attachments : List Attachment
  comments : List IssueComment
deriving DecidableEq

/-! ## `TicketFolder.issue` and `TicketFolder.cached_issue`

Lines 54-58 and 68-86 of ticketfolder.py.  The instance attributes `_issue`
and `_cached_issue`, the network-fetch count, and the ticket operation log form
the explicit state.  `remote` is what `self.jira.issue(self.ticket_number)`
would return at call time. -/

/-- Instance state relevant to the two lazy issue properties. -/
structure TFState where
  issueMemo : Option IssueData
  cachedMemo : Option IssueData
  fetchCount : Nat
  errorLog : List String
deriving DecidableEq

/-- The `issue` property (lines 54-58): fetch from the network only when no
`_issue` attribute exists yet, then memoize. -/
def TicketFolder.issue (remote : IssueData) (s : TFState) : IssueData × TFState :=
  match s.issueMemo with
  | some i => (i, s)
  | none => (remote, { s with issueMemo := some remote, fetchCount := s.fetchCount + 1 })

/-- Outcome of opening and reading the persisted `issue.json` snapshot: either
the parsed snapshot, or the `IOError` caught at line 80. -/
inductive ReadResult
  | ok (snapshot : IssueData)
  | ioError
deriving DecidableEq

/-- The `cached_issue` property (lines 68-86): memoized; on a snapshot read
failure it logs an error and falls back to the `issue` property. -/
def TicketFolder.cached_issue (read : ReadResult) (remote : IssueData) (s : TFState) :
    IssueData × TFState :=
  match s.cachedMemo with
  | some c => (c, s)
  | none =>
    match read with
    | .ok snap => (snap, { s with cachedMemo := some snap })
    | .ioError =>
      let s1 := { s with
        errorLog := s.errorLog ++ ["Error encountered while loading cached issue!"] }
      let r := TicketFolder.issue remote s1
      (r.1, { r.2 with cachedMemo := some r.1 })

/-- Concrete issue used in witnesses: remote state at a first read. -/
def issueA : IssueData := ⟨[("summary", JValue.str "a")], [], []⟩

/-- Concrete issue used in witnesses: remote state after a remote edit. -/
def issueB : IssueData := ⟨[("summary", JValue.str "b")], [], []⟩

/-! ## `TicketFolder.get_local_differing_fields`

Lines 354-371.  The two field managers (`RSTFieldManager`, an external
collaborator) are passed in as the dicts they produce. -/

/-- Lines 363-371: for each field of the merge-base snapshot whose locally
rendered value differs, record the `(original, local)` pair.  Building the
`differing` dict by iterating `original_values` is, for unique keys, appending
in iteration order, i.e. `filterMap`. -/
def get_local_differing_fields (original_values local_fields : List (String × String)) :
    List (String × (String × Option String)) :=
  original_values.filterMap fun kv =>
    if dictGet local_fields kv.1 = some kv.2 then none
    else some (kv.1, (kv.2, dictGet local_fields kv.1))

/-! ## Constants and the ignore machinery

Lines 259-340 of ticketfolder.py.  The glob matcher itself (`fnmatch`) is an
out-of-scope collaborator and is passed in as `matcher`.  The two optional
ignore files of each detection path are passed as their line lists (`none`
models the `IOError` of a missing file). -/

/-- Modelled from the spec: the `constants` module is not part of the source
sample.  It supplies the rendered-file names (`TICKET_DETAILS`,
`TICKET_COMMENTS`, `TICKET_NEW_COMMENT`), the file-valued and no-detail field
name sets, and the per-field file name template
(`TICKET_FILE_FIELD_TEMPLATE`); the spec further fixes that the local and
remote ignore files follow distinct filename conventions, which is embedded
structurally by giving each detection path its own pair of ignore-file
arguments. -/
structure Constants where
  ticketDetails : String
  ticketComments : String
  ticketNewComment : String
  fileFields : List String
  noDetailFields : List String
  fileFieldTemplate : String → String

/-- Lines 270-276: keep every line that is neither a `#` comment nor blank,
stripped. -/
def get_globs_from_file (lines : List String) : List String :=
  lines.filterMap fun line =>
    if startsWithHash line || pyStrip line == "" then none else some (pyStrip line)

/-- Lines 259-294: the built-in globs, then the in-folder ignore file, then the
user-global ignore file (missing files contribute nothing). -/
def get_ignore_globs (c : Constants) (localLines globalLines : Option (List String)) :
    List String :=
  ([c.ticketDetails, c.ticketComments, c.ticketNewComment]
      ++ c.fileFields.map c.fileFieldTemplate)
    ++ (match localLines with
        | some ls => get_globs_from_file ls
        | none => [])
    ++ (match globalLines with
        | some ls => get_globs_from_file ls
        | none => [])

/-- Lines 296-300: true when any glob matches the filename. -/
def file_matches_globs (matcher : String → String → Bool) (filename : String)
    (globs : List String) : Bool :=
  globs.any fun g => matcher filename g

/-- Lines 302-326: untracked plus modified files, dropping empty names,
ignore-glob matches, non-files and dotfiles.  `newFiles`/`modifiedFiles` are
the split outputs of `git ls-files -o` / `-m`. -/
def get_locally_changed (matcher : String → String → Bool) (c : Constants)
    (localIgn globalIgn : Option (List String)) (newFiles modifiedFiles : List String)
    (isFile : String → Bool) : List String :=
  let ignoreGlobs := get_ignore_globs c localIgn globalIgn
  ((newFiles ++ modifiedFiles).filter fun f => !(f == "")).filter fun f =>
    !(file_matches_globs matcher f ignoreGlobs) && isFile f && !(startsWithDot f)

/-- Lines 328-340: attachments whose change token differs from the recorded
one and which no remote ignore glob matches. -/
def get_remotely_changed (matcher : String → String → Bool) (c : Constants)
    (remoteLocalIgn remoteGlobalIgn : Option (List String))
    (meta : List (String × String)) (atts : List Attachment) : List String :=
  let ignoreGlobs := get_ignore_globs c remoteLocalIgn remoteGlobalIgn
  atts.filterMap fun a =>
    if !(file_matches_globs matcher a.filename ignoreGlobs)
        && !(dictGet meta a.filename == some a.created) then
      some a.filename
    else none

/-! ## Rendering of the details and comments files

Lines 404-447 of ticketfolder.py: the body of `fetch` that renders every field
of the issue into the aggregated details file, a dedicated file per file-valued
field, and the comments transcript. -/

/-- Every content line indented by the fixed four-space margin, with a trailing
blank line appended by the caller. -/
def indentBlock (value : String) : String :=
  String.join ((pySplitLines (pyReplaceCRLF value)).map fun line => "    " ++ line ++ "\n")

/-- One aggregated-file block: header `name::`, blank line, indented content,
trailing blank line (lines 435-438). -/
def blockText (field value : String) : String :=
  field ++ "::\n\n" ++ indentBlock value ++ "\n"

/-- Destination of one rendered field. -/
inductive FieldOut
  | skip
  | fileOut (content : String)
  | block (text : String)
deriving DecidableEq

/-- Lines 405-438, one iteration: strings are newline-normalized and stripped;
`None` becomes the empty string; any other value is handled via its
`six.text_type` rendering unless the field is no-detail; file-valued fields go
verbatim (plus newline) to their own file; remaining fields are skipped when
no-detail, else rendered as a block.  (The `value is None` test at line 430 is
unreachable: `value` is always a string there.) -/
def renderFieldValue (noDetailFields fileFields : List String) (field : String) (v : JValue) :
    FieldOut :=
  let sv : Option String :=
    match v with
    | .str s => some (pyStrip (pyReplaceCRLF s))
    | .null => some ""
    | .other t => if field ∈ noDetailFields then none else some t
  match sv with
  | none => .skip
  | some value =>
    if field ∈ fileFields then .fileOut (value ++ "\n")
    else if field ∈ noDetailFields then .skip
    else .block (blockText field value)

/-- Stable insertion into a key-sorted field list. -/
def insertByKey (kv : String × JValue) : List (String × JValue) → List (String × JValue)
  | [] => [kv]
  | x :: rest => if kv.1 ≤ x.1 then kv :: x :: rest else x :: insertByKey kv rest

/-- Python `sorted(raw['fields'].keys())` applied to the field list. -/
def sortFields (l : List (String × JValue)) : List (String × JValue) :=
  l.foldr insertByKey []

/-- The full details loop: the blocks written to the aggregated details file
(in order, with their field names) and the file-valued outputs (field name and
content). -/
def renderDetails (noDetailFields fileFields : List String)
    (fields : List (String × JValue)) :
    List (String × String) × List (String × String) :=
  (sortFields fields).foldl
    (fun acc kv =>
      match renderFieldValue noDetailFields fileFields kv.1 kv.2 with
      | .skip => acc
      | .fileOut content => (acc.1, acc.2 ++ [(kv.1, content)])
      | .block text => (acc.1 ++ [(kv.1, text)], acc.2))
    ([], [])

/-- Lines 440-447: the comments transcript. -/
def renderComments (comments : List IssueComment) : String :=
  String.join (comments.map fun cm =>
    cm.created ++ ": " ++ cm.author ++ "::\n\n" ++ indentBlock cm.body ++ "\n")

/-- The file writes performed by the rendering part of `fetch` (lines
404-447), in order: each file-valued field to its templated filename, then the
aggregated details file, then the comments file. -/
def renderWrites (c : Constants) (issue : IssueData) : List (String × String) :=
  let r := renderDetails c.noDetailFields c.fileFields issue.fields
  (r.2.map fun kv => (c.fileFieldTemplate kv.1, kv.2))
    ++ [(c.ticketDetails, String.join (r.1.map Prod.snd))]
    ++ [(c.ticketComments, renderComments issue.comments)]

/-! ## The `fetch` state machine

Lines 387-456 of ticketfolder.py.  The shadow work-tree is an association list
from repository-relative filename to content; the remote-file metadata mapping
(`.jirafs/remote_files.json`, itself inside the shadow tree) is kept as its own
component of the committed tree.  `git add -A` plus `git commit` with
`failure_ok=True` is a commit exactly when the staged tree differs in content
from the last committed tree. -/

/-- Lines 391-400, inner loop body: if the attachment carries the wanted
filename, record its change token and overwrite the shadow file with its
downloaded content. -/
def applyAtt (f : String) (st : List (String × String) × List (String × String))
    (a : Attachment) : List (String × String) × List (String × String) :=
  if a.filename = f then (dictSet f a.created st.1, dictSet f a.content st.2) else st

/-- Lines 391-400: process one remotely-changed filename against every
attachment. -/
def processFilename (atts : List Attachment)
    (st : List (String × String) × List (String × String)) (f : String) :
    List (String × String) × List (String × String) :=
  atts.foldl (applyAtt f) st

/-- Lines 390-400, outer loop: process every remotely-changed filename. -/
def downloads (atts : List Attachment) (changed : List String)
    (st : List (String × String) × List (String × String)) :
    List (String × String) × List (String × String) :=
  changed.foldl (processFilename atts) st

/-- The last attachment carrying filename `f`, if any (proof artifact: the net
effect of the inner download loop keeps the last matching attachment). -/
def lastFor (f : String) : List Attachment → Option Attachment
  | [] => none
  | a :: rest =>
    match lastFor f rest with
    | some b => some b
    | none => if a.filename = f then some a else none

/-- Apply a sequence of file writes to a tree, in order. -/
def applyWrites (ws : List (String × String)) (files : List (String × String)) :
    List (String × String) :=
  ws.foldl (fun fl kv => dictSet kv.1 kv.2 fl) files

/-- The last value written to key `k` by a write sequence, if any. -/
def lastVal (k : String) : List (String × String) → Option String
  | [] => none
  | kv :: rest =>
    match lastVal k rest with
    | some v => some v
    | none => if kv.1 = k then some kv.2 else none

/-- Content equality of two file maps: every key of either side binds the same
value on both sides (git compares trees by content, not by our list
representation). -/
def mapEquiv (l1 l2 : List (String × String)) : Bool :=
  (l1.map Prod.fst ++ l2.map Prod.fst).all fun k => dictGet l1 k == dictGet l2 k

/-- Content equality of two shadow trees (metadata file and working files). -/
def treeEquiv (t1 t2 : List (String × String) × List (String × String)) : Bool :=
  mapEquiv t1.1 t2.1 && mapEquiv t1.2 t2.2

/-- On-disk state of one ticket folder's shadow side. -/
structure FolderState where
  meta : List (String × String)
  shadowFiles : List (String × String)
  cachedIssue : Option IssueData
  shadowCommits : Nat
  lastCommitted : Option (List (String × String) × List (String × String))
  pushedRef : Nat

/-- Lines 451-455: `git add -A; git commit` in the shadow tree with
`failure_ok=True` — a new commit exactly when the staged content differs from
the last committed content. -/
def commitShadow (s : FolderState) : FolderState :=
  let t := (s.meta, s.shadowFiles)
  match s.lastCommitted with
  | some t' =>
    if treeEquiv t t' then s
    else { s with shadowCommits := s.shadowCommits + 1, lastCommitted := some t }
  | none => { s with shadowCommits := s.shadowCommits + 1, lastCommitted := some t }

/-- Lines 387-449: the content effect of `fetch` on the metadata mapping and
the shadow files — download every remotely-changed attachment (recording its
token), store the metadata, render fields and comments into the shadow
tree. -/
def fetchContent (matcher : String → String → Bool) (c : Constants)
    (remoteLocalIgn remoteGlobalIgn : Option (List String)) (issue : IssueData)
    (m fl : List (String × String)) :
    List (String × String) × List (String × String) :=
  let changed :=
    get_remotely_changed matcher c remoteLocalIgn remoteGlobalIgn m issue.attachments
  let dl := downloads issue.attachments changed (m, fl)
  (dl.1, applyWrites (renderWrites c issue) dl.2)

/-- Lines 387-456: `fetch`.  Reads the recorded metadata, downloads every
remotely-changed attachment (recording its token), stores the metadata,
renders fields and comments into the shadow tree, persists the cached issue
snapshot, commits the shadow tree, and pushes the shadow history into the
`jira` tracking reference. -/
def fetch (matcher : String → String → Bool) (c : Constants)
    (remoteLocalIgn remoteGlobalIgn : Option (List String)) (issue : IssueData)
    (s : FolderState) : FolderState :=
  let ct := fetchContent matcher c remoteLocalIgn remoteGlobalIgn issue s.meta s.shadowFiles
  let s2 := commitShadow
    { s with meta := ct.1, shadowFiles := ct.2, cachedIssue := some issue }
  { s2 with pushedRef := s2.shadowCommits }

/-! ## The `push` operation

Lines 467-520 of ticketfolder.py, embedded as a trace of collaborator calls
plus the state it leaves behind.  The field managers, the git file listings and
the tracker's token assignment are inputs (`PushEnv`). -/

/-- One observable collaborator call made by `push`. -/
inductive PushAction
  | git (args : List String) (shadow : Bool)
  | deleteAttachment (filename : String)
  | addAttachment (filename : String)
  | addComment (text : String)
  | updateFields (updates : List (String × Option String))
  | setRemoteMeta (meta : List (String × String))
deriving DecidableEq

/-- Recognizer for comment submissions in a push trace. -/
def isAddComment : PushAction → Bool
  | .addComment _ => true
  | _ => false

/-- Collaborator responses consumed by `push`. -/
structure PushEnv where
  matcher : String → String → Bool
  consts : Constants
  localIgnore : Option (List String)
  globalIgnore : Option (List String)
  newFiles : List String
  modifiedFiles : List String
  isFile : String → Bool
  originalFields : List (String × String)
  localFields : List (String × String)
  newToken : String → String

/-- Mutable state read and written by `push`: the pending-comment buffer file
(`none` models a missing file), the remote-file metadata, and the remote
attachment list. -/
structure PushState where
  buffer : Option String
  meta : List (String × String)
  attachments : List Attachment

/-- Lines 373-385: read the pending-comment buffer and strip it; with `clear`
the file is truncated after reading; a missing file yields the empty comment
and stays missing. -/
def get_new_comment (clear : Bool) (buffer : Option String) : String × Option String :=
  match buffer with
  | none => ("", none)
  | some c => (pyStrip c, if clear then some "" else some c)

/-- Lines 472-486, trace part: for each file to upload, delete every remote
attachment of the same name, then upload. -/
def uploadActions (atts : List Attachment) (toUpload : List String) : List PushAction :=
  toUpload.foldl
    (fun acc f =>
      acc
        ++ ((atts.filter fun a => a.filename == f).map fun a =>
              PushAction.deleteAttachment a.filename)
        ++ [PushAction.addAttachment f])
    []

/-- Lines 472-486, metadata part: record the tracker-assigned token of each
uploaded file. -/
def uploadMeta (newToken : String → String) (toUpload : List String)
    (meta : List (String × String)) : List (String × String) :=
  toUpload.foldl (fun m f => dictSet f (newToken f) m) meta

/-- The git queries issued while computing `status()` (lines 305-310 and
96-99). -/
def statusGitActions : List PushAction :=
  [PushAction.git ["ls-files", "-o"] false,
   PushAction.git ["ls-files", "-m"] false,
   PushAction.git ["merge-base", "master", "jira"] false]

/-- Lines 467-520: `push`.  Computes `status()`, uploads each changed file
(deleting same-named remote attachments first), submits the pending comment if
its stripped content is non-empty (the buffer is truncated by the read),
batches the field updates, commits the working tree, runs `git fetch` in the
shadow tree and `git merge master` in the working tree, writes and commits the
remote-file metadata in the shadow tree, and pushes the shadow history into
the `jira` reference. -/
def push (env : PushEnv) (s : PushState) : List PushAction × PushState :=
  let toUpload := get_locally_changed env.matcher env.consts env.localIgnore env.globalIgnore
      env.newFiles env.modifiedFiles env.isFile
  let differs := get_local_differing_fields env.originalFields env.localFields
  let meta1 := uploadMeta env.newToken toUpload s.meta
  let gc := get_new_comment true s.buffer
  let commentActs := if gc.1 == "" then [] else [PushAction.addComment gc.1]
  let updates := differs.map fun kv => (kv.1, kv.2.2)
  let updateActs := if updates.isEmpty then [] else [PushAction.updateFields updates]
  (statusGitActions
      ++ uploadActions s.attachments toUpload
      ++ commentActs
      ++ updateActs
      ++ [PushAction.git ["add", "-A"] false,
          PushAction.git ["commit", "-m", "Pushed local changes"] false,
          PushAction.git ["fetch"] true,
          PushAction.git ["merge", "master"] false,
          PushAction.setRemoteMeta meta1,
          PushAction.git ["add", "-A"] true,
          PushAction.git ["commit", "-m", "Pulled remote changes"] true,
          PushAction.git ["push", "origin", "jira"] true],
   { s with buffer := gc.2, meta := meta1 })

/-! ## Migrations

Lines 537-551 of ticketfolder.py.  The `migrations` module is an external
table of per-version transforms; the source looks one up by the number
`self.version + 1` and invokes it.  The spec's contract that each migration
persists its own version number as its final act is the `persists` field. -/

/-- On-disk state seen by the migration runner: the stored version marker and
the rest of the working-copy layout (abstract). -/
structure MigState where
  version : Nat
  layout : List String
deriving DecidableEq

/-- The registered migrations (`migrations.migration_000N`), together with the
spec's contract that migration `v` leaves the stored version at `v`. -/
structure MigrationTable where
  apply : Nat → MigState → MigState
  persists : ∀ v s, (apply v s).version = v

/-- Lines 537-546: `run_migrations` — while the stored version is below the
current repository version, invoke the migration registered for
`version + 1`.  Returns the final state and the ordered list of migration
numbers applied. -/
def run_migrations (current : Nat) (m : MigrationTable) (s : MigState) :
    MigState × List Nat :=
  if h : s.version < current then
    let r := run_migrations current m (m.apply (s.version + 1) s)
    (r.1, (s.version + 1) :: r.2)
  else (s, [])
termination_by current - s.version
decreasing_by
  have hp := m.persists (s.version + 1) s
  omega

/-- The ascending list `[a, a+1, ..., a+n-1]`. -/
def rangeAsc (a : Nat) : Nat → List Nat
  | 0 => []
  | n + 1 => a :: rangeAsc (a + 1) n

/-! ## Concrete instances used by witnesses and counterexamples -/

/-- Witness constants: concrete rendered-file names and templates. -/
def constsEx : Constants :=
  ⟨"details.rst", "comments.read_only.jira", "new_comment.jira.txt", [], [],
   fun f => f ++ ".jira"⟩

/-- Witness glob matcher: a literal pattern matches exactly itself. -/
def eqMatcher : String → String → Bool := fun f g => f == g

/-- Witness attachment. -/
def attEx : Attachment := ⟨"x.txt", "T1", "contents"⟩

/-- Witness push environment: no local changes, no differing fields. -/
def pushEnvEx : PushEnv :=
  ⟨eqMatcher, constsEx, none, none, [], [], fun _ => false, [], [], fun _ => "TOK"⟩

/-- Witness push state with a given pending-comment buffer. -/
def pushStateEx (buffer : Option String) : PushState := ⟨buffer, [], []⟩

/-- Witness migration table: each migration only persists its version. -/
def migTableEx : MigrationTable :=
  ⟨fun v s => ⟨v, s.layout⟩, fun _ _ => rfl⟩

/-- Witness folder at stored version 1. -/
def migStateEx : MigState := ⟨1, []⟩

/-! ## Theorems -/

theorem dictGet_dictSet_self {α : Type} {l : List (String × α)} {k : String} {v : α}
    (h : dictGet l k = some v) : dictSet k v l = l := by
  induction l with
  | nil => simp [dictGet] at h
  | cons kv rest ih =>
    obtain ⟨k', v'⟩ := kv
    by_cases hk : k' = k
    · subst hk
      simp [dictGet] at h
      simp [dictSet, h]
    · simp [dictGet, hk] at h
      simp [dictSet, hk, ih h]

theorem dictGet_dictSet_same {α : Type} (l : List (String × α)) (k : String) (v : α) :
    dictGet (dictSet k v l) k = some v := by
  induction l with
  | nil => simp [dictSet, dictGet]
  | cons kv rest ih =>
    obtain ⟨k', v'⟩ := kv
    by_cases hk : k' = k
    · simp [dictSet, hk, dictGet]
    · simp [dictSet, hk, dictGet, ih]

theorem dictGet_dictSet_other {α : Type} (l : List (String × α)) (k k' : String) (v : α)
    (h : k' ≠ k) : dictGet (dictSet k v l) k' = dictGet l k' := by
  induction l with
  | nil => simp [dictSet, dictGet, Ne.symm h]
  | cons kv rest ih =>
    obtain ⟨k0, v0⟩ := kv
    by_cases hk : k0 = k
    · subst hk
      simp [dictSet, dictGet, Ne.symm h]
    · simp [dictSet, hk, dictGet, ih]

theorem dictSet_dictSet {α : Type} (l : List (String × α)) (k : String) (v v' : α) :
    dictSet k v' (dictSet k v l) = dictSet k v' l := by
  induction l with
  | nil => simp [dictSet]
  | cons kv rest ih =>
    obtain ⟨k0, v0⟩ := kv
    by_cases hk : k0 = k
    · simp [dictSet, hk]
    · simp [dictSet, hk, ih]

theorem dictGet_eq_none_of_not_mem {α : Type} (l : List (String × α)) (k : String)
    (h : k ∉ l.map Prod.fst) : dictGet l k = none := by
  induction l with
  | nil => rfl
  | cons kv rest ih =>
    obtain ⟨k0, v0⟩ := kv
    rw [List.map_cons] at h
    have h1 : k0 ≠ k := by
      intro hh; exact h (by simp [hh])
    have h2 : k ∉ rest.map Prod.fst := by
      intro hh; exact h (by simp [hh])
    simp [dictGet, h1, ih h2]

/-- C1 (counterexample): the claim that every access to the `issue` property
re-fetches the issue from the network is false on the code.  Starting from a
fresh instance, a first read memoizes `issueA`; a second read made after the
remote issue has changed to `issueB` returns the stale `issueA` and performs
no network fetch (the fetch count stays 1, not 2). -/
theorem issue_refetch_counterexample :
    (TicketFolder.issue issueB (TicketFolder.issue issueA ⟨none, none, 0, []⟩).2).1 = issueA ∧
    issueA ≠ issueB ∧
    (TicketFolder.issue issueB
        (TicketFolder.issue issueA ⟨none, none, 0, []⟩).2).2.fetchCount = 1 := by
  refine ⟨rfl, ?_, rfl⟩
  decide

/-- C1 (amended): the first access to the `issue` property performs the network
fetch and memoizes the result in `_issue`; every subsequent access on the same
instance returns the memoized issue with no further network fetch, so remote
changes made between two reads are not reflected by the second read. -/
theorem issue_fetches_once (remote : IssueData) (s : TFState) :
    (s.issueMemo = none →
      TicketFolder.issue remote s =
        (remote, { s with issueMemo := some remote, fetchCount := s.fetchCount + 1 })) ∧
    (∀ i, s.issueMemo = some i → TicketFolder.issue remote s = (i, s)) := by
  constructor
  · intro h
    simp [TicketFolder.issue, h]
  · intro i h
    simp [TicketFolder.issue, h]

/-- C1 witness: a concrete first read (fetches and memoizes) and second read
(returns the memoized issue unchanged). -/
theorem issue_fetches_once_witness :
    TicketFolder.issue issueA ⟨none, none, 0, []⟩
        = (issueA, ⟨some issueA, none, 1, []⟩) ∧
    TicketFolder.issue issueB ⟨some issueA, none, 1, []⟩
        = (issueA, ⟨some issueA, none, 1, []⟩) :=
  ⟨(issue_fetches_once issueA ⟨none, none, 0, []⟩).1 rfl,
   (issue_fetches_once issueB ⟨some issueA, none, 1, []⟩).2 issueA rfl⟩

/-- C4: when reading the persisted cached-issue snapshot fails with the
`IOError` caught at line 80 (first access on a fresh instance), `cached_issue`
does not raise: it appends an error entry to the operation log and falls back
to a live network fetch through the `issue` property, returning that issue. -/
theorem cached_issue_ioerror_falls_back (remote : IssueData) (s : TFState)
    (hc : s.cachedMemo = none) (hi : s.issueMemo = none) :
    TicketFolder.cached_issue .ioError remote s =
      (remote,
        { issueMemo := some remote, cachedMemo := some remote,
          fetchCount := s.fetchCount + 1,
          errorLog := s.errorLog ++ ["Error encountered while loading cached issue!"] }) := by
  simp [TicketFolder.cached_issue, TicketFolder.issue, hc, hi]

/-- C4 witness: the fallback evaluated on a fresh instance. -/
theorem cached_issue_ioerror_falls_back_witness :
    TicketFolder.cached_issue .ioError issueA ⟨none, none, 0, []⟩
      = (issueA,
          { issueMemo := some issueA, cachedMemo := some issueA, fetchCount := 1,
            errorLog := ["Error encountered while loading cached issue!"] }) :=
  cached_issue_ioerror_falls_back issueA ⟨none, none, 0, []⟩ rfl rfl

theorem get_local_differing_fields_keys (original_values local_fields : List (String × String))
    (k : String) (h : k ∉ original_values.map Prod.fst) :
    dictGet (get_local_differing_fields original_values local_fields) k = none := by
  induction original_values with
  | nil => rfl
  | cons kv rest ih =>
    obtain ⟨k0, v0⟩ := kv
    rw [List.map_cons] at h
    have h1 : k0 ≠ k := by
      intro hh; exact h (by simp [hh])
    have h2 : k ∉ rest.map Prod.fst := by
      intro hh; exact h (by simp [hh])
    by_cases hd : dictGet local_fields k0 = some v0
    · simpa [get_local_differing_fields, hd] using ih h2
    · simpa [get_local_differing_fields, hd, dictGet, h1] using ih h2

theorem get_local_differing_fields_cons (k0 : String) (v0 : String)
    (rest local_fields : List (String × String)) :
    get_local_differing_fields ((k0, v0) :: rest) local_fields =
      if dictGet local_fields k0 = some v0 then get_local_differing_fields rest local_fields
      else (k0, (v0, dictGet local_fields k0)) :: get_local_differing_fields rest local_fields := by
  by_cases hd : dictGet local_fields k0 = some v0 <;>
    simp [get_local_differing_fields, List.filterMap_cons, hd]

/-- C5: field-diff correctness of `get_local_differing_fields`.  For a field
`k` of the merge-base snapshot with original value `A`: if the locally
rendered value is `B ≠ A` the diff binds `k` to `(A, B)`; if the local value
equals `A` the field is absent from the diff; and a field absent from the
original snapshot never appears in the diff, so it can never be pushed as an
update. -/
theorem get_local_differing_fields_correct
    (original_values local_fields : List (String × String)) (k : String)
    (hnd : (original_values.map Prod.fst).Nodup) :
    (∀ A B, dictGet original_values k = some A → dictGet local_fields k = some B → A ≠ B →
      dictGet (get_local_differing_fields original_values local_fields) k
        = some (A, some B)) ∧
    (∀ A, dictGet original_values k = some A → dictGet local_fields k = some A →
      dictGet (get_local_differing_fields original_values local_fields) k = none) ∧
    (dictGet original_values k = none →
      dictGet (get_local_differing_fields original_values local_fields) k = none) := by
  induction original_values with
  | nil =>
    refine ⟨?_, ?_, ?_⟩
    · intro A B hA
      simp [dictGet] at hA
    · intro A hA
      simp [dictGet] at hA
    · intro _
      rfl
  | cons kv rest ih =>
    obtain ⟨k0, v0⟩ := kv
    rw [List.map_cons, List.nodup_cons] at hnd
    have ihr := ih hnd.2
    by_cases hk : k0 = k
    · subst hk
      refine ⟨?_, ?_, ?_⟩
      · intro A B hA hB hAB
        simp [dictGet] at hA
        subst hA
        have hne : ¬ dictGet local_fields k0 = some v0 := by
          rw [hB]
          intro hh
          exact hAB (Option.some.inj hh).symm
        rw [get_local_differing_fields_cons, if_neg hne]
        simp [dictGet, hB]
      · intro A hA hB
        simp [dictGet] at hA
        subst hA
        rw [get_local_differing_fields_cons, if_pos hB]
        exact get_local_differing_fields_keys rest local_fields k0 hnd.1
      · intro hA
        simp [dictGet] at hA
    · refine ⟨?_, ?_, ?_⟩
      · intro A B hA hB hAB
        rw [show dictGet ((k0, v0) :: rest) k = dictGet rest k from by simp [dictGet, hk]] at hA
        rw [get_local_differing_fields_cons]
        by_cases hd : dictGet local_fields k0 = some v0
        · rw [if_pos hd]
          exact ihr.1 A B hA hB hAB
        · rw [if_neg hd]
          rw [show dictGet ((k0, (v0, dictGet local_fields k0))
                :: get_local_differing_fields rest local_fields) k
              = dictGet (get_local_differing_fields rest local_fields) k from by
            simp [dictGet, hk]]
          exact ihr.1 A B hA hB hAB
      · intro A hA hB
        rw [show dictGet ((k0, v0) :: rest) k = dictGet rest k from by simp [dictGet, hk]] at hA
        rw [get_local_differing_fields_cons]
        by_cases hd : dictGet local_fields k0 = some v0
        · rw [if_pos hd]
          exact ihr.2.1 A hA hB
        · rw [if_neg hd]
          rw [show dictGet ((k0, (v0, dictGet local_fields k0))
                :: get_local_differing_fields rest local_fields) k
              = dictGet (get_local_differing_fields rest local_fields) k from by
            simp [dictGet, hk]]
          exact ihr.2.1 A hA hB
      · intro hA
        rw [show dictGet ((k0, v0) :: rest) k = dictGet rest k from by simp [dictGet, hk]] at hA
        rw [get_local_differing_fields_cons]
        by_cases hd : dictGet local_fields k0 = some v0
        · rw [if_pos hd]
          exact ihr.2.2 hA
        · rw [if_neg hd]
          rw [show dictGet ((k0, (v0, dictGet local_fields k0))
                :: get_local_differing_fields rest local_fields) k
              = dictGet (get_local_differing_fields rest local_fields) k from by
            simp [dictGet, hk]]
          exact ihr.2.2 hA

/-- C5 witness: original `summary = "A"` with local `"B"` is reported as
`("A", "B")`; unchanged `priority` is absent; a field absent from the original
snapshot is absent from the diff. -/
theorem get_local_differing_fields_correct_witness :
    (([("summary", "A"), ("priority", "C")].map
        (Prod.fst (α := String) (β := String))).Nodup) ∧
    dictGet (get_local_differing_fields [("summary", "A"), ("priority", "C")]
        [("summary", "B"), ("priority", "C")]) "summary" = some ("A", some "B") ∧
    dictGet (get_local_differing_fields [("summary", "A"), ("priority", "C")]
        [("summary", "B"), ("priority", "C")]) "priority" = none ∧
    dictGet (get_local_differing_fields [("summary", "A"), ("priority", "C")]
        [("summary", "B"), ("priority", "C")]) "missing" = none := by
  refine ⟨by decide, ?_, ?_, ?_⟩
  · exact (get_local_differing_fields_correct [("summary", "A"), ("priority", "C")]
      [("summary", "B"), ("priority", "C")] "summary" (by decide)).1 "A" "B" (by decide)
      (by decide) (by decide)
  · exact (get_local_differing_fields_correct [("summary", "A"), ("priority", "C")]
      [("summary", "B"), ("priority", "C")] "priority" (by decide)).2.1 "C" (by decide)
      (by decide)
  · exact (get_local_differing_fields_correct [("summary", "A"), ("priority", "C")]
      [("summary", "B"), ("priority", "C")] "missing" (by decide)).2.2 (by decide)

theorem run_migrations_applies (current : Nat) (m : MigrationTable) :
    ∀ n s, current - s.version = n → s.version ≤ current →
      (run_migrations current m s).2 = rangeAsc (s.version + 1) (current - s.version) ∧
      (run_migrations current m s).1.version = current := by
  intro n
  induction n with
  | zero =>
    intro s hn hle
    have hv : ¬ s.version < current := by omega
    rw [run_migrations, dif_neg hv]
    have hz : current - s.version = 0 := hn
    rw [hz]
    refine ⟨rfl, ?_⟩
    show s.version = current
    omega
  | succ n ih =>
    intro s hn hle
    have hlt : s.version < current := by omega
    have hp := m.persists (s.version + 1) s
    have hr := ih (m.apply (s.version + 1) s) (by omega) (by omega)
    rw [hp] at hr
    constructor
    · rw [run_migrations, dif_pos hlt]
      have he : current - s.version = (current - (s.version + 1)) + 1 := by omega
      rw [he]
      show (s.version + 1) :: (run_migrations current m (m.apply (s.version + 1) s)).2
          = (s.version + 1) :: rangeAsc (s.version + 1 + 1) (current - (s.version + 1))
      rw [hr.1]
    · rw [run_migrations, dif_pos hlt]
      exact hr.2

/-- C9: under the contract that each registered migration persists its own
version number, `run_migrations` on a folder stored at version `v < current`
terminates (it is a total function), applies exactly the migrations
`v+1 .. current` in strictly ascending order with none skipped, leaves the
stored version equal to `current`, and a second run applies no migration. -/
theorem run_migrations_monotone (current : Nat) (m : MigrationTable) (v : Nat) (s : MigState)
    (hv : s.version = v) (hlt : v < current) :
    (run_migrations current m s).2 = rangeAsc (v + 1) (current - v) ∧
    (run_migrations current m s).1.version = current ∧
    (run_migrations current m (run_migrations current m s).1).2 = [] := by
  subst hv
  have h := run_migrations_applies current m (current - s.version) s rfl (by omega)
  refine ⟨h.1, h.2, ?_⟩
  have h2 := run_migrations_applies current m 0 (run_migrations current m s).1
    (by rw [h.2]; omega) (by rw [h.2])
  rw [h2.1, h.2, Nat.sub_self]
  rfl

/-- C9 witness: at stored version 1 with current version 3, migrations 2 and 3
run in order, the folder ends at version 3, and a second run applies
nothing. -/
theorem run_migrations_monotone_witness :
    migStateEx.version = 1 ∧ (1 : Nat) < 3 ∧
    (run_migrations 3 migTableEx migStateEx).2 = rangeAsc 2 2 ∧
    (run_migrations 3 migTableEx migStateEx).1.version = 3 ∧
    (run_migrations 3 migTableEx (run_migrations 3 migTableEx migStateEx).1).2 = [] := by
  have h := run_migrations_monotone 3 migTableEx 1 migStateEx rfl (by decide)
  exact ⟨rfl, by decide, h.1, h.2.1, h.2.2⟩

theorem renderFieldValue_no_detail (noDetailFields fileFields : List String) (field : String)
    (v : JValue) (h : field ∈ noDetailFields) (t : String) :
    renderFieldValue noDetailFields fileFields field v ≠ .block t := by
  cases v with
  | str s =>
    by_cases hf : field ∈ fileFields <;> simp [renderFieldValue, h, hf]
  | null =>
    by_cases hf : field ∈ fileFields <;> simp [renderFieldValue, h, hf]
  | other t' =>
    simp [renderFieldValue, h]

theorem renderDetails_foldl_no_detail (noDetailFields fileFields : List String)
    (l : List (String × JValue)) (f : String) (hf : f ∈ noDetailFields)
    (acc : List (String × String) × List (String × String))
    (hacc : f ∉ acc.1.map Prod.fst) :
    f ∉ ((l.foldl
      (fun acc kv =>
        match renderFieldValue noDetailFields fileFields kv.1 kv.2 with
        | .skip => acc
        | .fileOut content => (acc.1, acc.2 ++ [(kv.1, content)])
        | .block text => (acc.1 ++ [(kv.1, text)], acc.2)) acc).1.map Prod.fst) := by
  induction l generalizing acc with
  | nil => exact hacc
  | cons kv rest ih =>
    rw [List.foldl_cons]
    rcases hrv : renderFieldValue noDetailFields fileFields kv.1 kv.2 with _ | content | text
    · exact ih acc hacc
    · exact ih _ hacc
    · apply ih ((acc.1 ++ [(kv.1, text)], acc.2))
      rw [List.map_append]
      intro hmem
      rcases List.mem_append.1 hmem with h1 | h2
      · exact hacc h1
      · simp at h2
        subst h2
        exact renderFieldValue_no_detail _ _ _ _ hf text hrv

/-- C8: for every issue snapshot and every field flagged no-detail, `fetch`
writes no header block for that field into the aggregated details file,
whatever the field's value type (string, None, or other). -/
theorem no_detail_field_not_in_details (noDetailFields fileFields : List String)
    (fields : List (String × JValue)) (f : String) (hf : f ∈ noDetailFields) :
    f ∉ ((renderDetails noDetailFields fileFields fields).1.map Prod.fst) := by
  unfold renderDetails
  exact renderDetails_foldl_no_detail noDetailFields fileFields (sortFields fields) f hf
    ([], []) (by simp)

/-- C8 witness: a no-detail field of each value type contributes no details
block. -/
theorem no_detail_field_not_in_details_witness :
    "votes" ∈ ["votes"] ∧
    "votes" ∉ ((renderDetails ["votes"] []
      [("votes", JValue.other "5"), ("watches", JValue.null),
       ("labels", JValue.str "x")]).1.map Prod.fst) :=
  ⟨by decide,
   no_detail_field_not_in_details ["votes"] []
     [("votes", JValue.other "5"), ("watches", JValue.null), ("labels", JValue.str "x")]
     "votes" (by decide)⟩

theorem mem_get_remotely_changed (matcher : String → String → Bool) (c : Constants)
    (rl rg : Option (List String)) (meta : List (String × String))
    (atts : List Attachment) (f : String) :
    f ∈ get_remotely_changed matcher c rl rg meta atts ↔
      ∃ a ∈ atts, a.filename = f ∧
        file_matches_globs matcher f (get_ignore_globs c rl rg) = false ∧
        dictGet meta f ≠ some a.created := by
  unfold get_remotely_changed
  rw [List.mem_filterMap]
  constructor
  · rintro ⟨a, ha, heq⟩
    split at heq
    case isTrue hcond =>
      have hfn : a.filename = f := Option.some.inj heq
      rw [hfn] at hcond
      rw [Bool.and_eq_true, Bool.not_eq_true', Bool.not_eq_true'] at hcond
      refine ⟨a, ha, hfn, hcond.1, ?_⟩
      intro hh
      rw [hh] at hcond
      simp at hcond
    case isFalse => exact Option.noConfusion heq
  · rintro ⟨a, ha, hfn, hm, hne⟩
    refine ⟨a, ha, ?_⟩
    subst hfn
    rw [if_pos]
    rw [Bool.and_eq_true, Bool.not_eq_true', Bool.not_eq_true']
    refine ⟨hm, ?_⟩
    rw [beq_eq_false_iff_ne]
    exact hne

/-- C6 (amended): a filename matching any glob configured for a given
detection path — the fixed built-in set, that path's in-folder ignore file, or
that path's user-global ignore file — is excluded from that path's output:
from `status()['to_upload']` for local-change detection and from the
remotely-changed attachment set for remote-change detection.  The built-in
globs are common to both paths, so a built-in match is excluded from both; the
two file-based sources are configured per path (local detection reads
`IGNORE_FILE`, remote detection reads `REMOTE_IGNORE_FILE`). -/
theorem ignored_filename_excluded (matcher : String → String → Bool) (c : Constants)
    (localIgn globalIgn remoteLocalIgn remoteGlobalIgn : Option (List String))
    (f : String) (newFiles modifiedFiles : List String) (isFile : String → Bool)
    (meta : List (String × String)) (atts : List Attachment) :
    (file_matches_globs matcher f (get_ignore_globs c localIgn globalIgn) = true →
      f ∉ get_locally_changed matcher c localIgn globalIgn newFiles modifiedFiles isFile) ∧
    (file_matches_globs matcher f (get_ignore_globs c remoteLocalIgn remoteGlobalIgn) = true →
      f ∉ get_remotely_changed matcher c remoteLocalIgn remoteGlobalIgn meta atts) := by
  constructor
  · intro hm hmem
    unfold get_locally_changed at hmem
    rw [List.mem_filter] at hmem
    rw [hm] at hmem
    simp at hmem
  · intro hm hmem
    rw [mem_get_remotely_changed] at hmem
    obtain ⟨a, _, _, hfm, _⟩ := hmem
    rw [hm] at hfm
    exact Bool.noConfusion hfm

/-- C6 (counterexample): the claim as stated is false on the code.  The
pattern `x.txt`, supplied only by the in-folder ignore file of the local
detection path, matches the filename `x.txt`; that filename is excluded from
the upload set, yet it is still reported by remote-change detection, because
remote-change detection reads a differently named in-folder ignore file that
does not contain the pattern. -/
theorem ignored_filename_counterexample :
    file_matches_globs eqMatcher "x.txt" (get_globs_from_file ["x.txt"]) = true ∧
    "x.txt" ∉ get_locally_changed eqMatcher constsEx (some ["x.txt"]) none ["x.txt"] []
      (fun _ => true) ∧
    "x.txt" ∈ get_remotely_changed eqMatcher constsEx none none [] [attEx] := by
  refine ⟨by decide, by decide, by decide⟩

/-- C6 witness: with the pattern configured for each path, the filename is
excluded from both outputs. -/
theorem ignored_filename_excluded_witness :
    "x.txt" ∉ get_locally_changed eqMatcher constsEx (some ["x.txt"]) none ["x.txt"] []
      (fun _ => true) ∧
    "x.txt" ∉ get_remotely_changed eqMatcher constsEx (some ["x.txt"]) none [] [attEx] :=
  ⟨(ignored_filename_excluded eqMatcher constsEx (some ["x.txt"]) none (some ["x.txt"]) none
      "x.txt" ["x.txt"] [] (fun _ => true) [] [attEx]).1 (by decide),
   (ignored_filename_excluded eqMatcher constsEx (some ["x.txt"]) none (some ["x.txt"]) none
      "x.txt" ["x.txt"] [] (fun _ => true) [] [attEx]).2 (by decide)⟩

theorem filter_isAddComment_map_delete (l : List Attachment) :
    ((l.map fun a => PushAction.deleteAttachment a.filename).filter isAddComment) = [] := by
  induction l with
  | nil => rfl
  | cons a r ih => simp [isAddComment, ih]

theorem uploadActions_foldl_filter (atts : List Attachment) (toUpload : List String)
    (acc : List PushAction) :
    ((toUpload.foldl
      (fun acc f =>
        acc
          ++ ((atts.filter fun a => a.filename == f).map fun a =>
                PushAction.deleteAttachment a.filename)
          ++ [PushAction.addAttachment f]) acc).filter isAddComment)
      = acc.filter isAddComment := by
  induction toUpload generalizing acc with
  | nil => rfl
  | cons f rest ih =>
    rw [List.foldl_cons, ih]
    rw [List.filter_append, List.filter_append, filter_isAddComment_map_delete]
    simp [isAddComment]

theorem uploadActions_filter (atts : List Attachment) (toUpload : List String) :
    (uploadActions atts toUpload).filter isAddComment = [] := by
  unfold uploadActions
  rw [uploadActions_foldl_filter]
  rfl

theorem push_trace_comment_filter (env : PushEnv) (s : PushState) :
    (push env s).1.filter isAddComment
      = if (get_new_comment true s.buffer).1 = "" then []
        else [PushAction.addComment (get_new_comment true s.buffer).1] := by
  unfold push
  rw [List.filter_append, List.filter_append, List.filter_append, List.filter_append]
  rw [uploadActions_filter]
  have h1 : statusGitActions.filter isAddComment = [] := rfl
  rw [h1]
  have h2 : ∀ updates : List (String × Option String),
      ((if updates.isEmpty then ([] : List PushAction)
        else [PushAction.updateFields updates]).filter isAddComment) = [] := by
    intro updates
    by_cases hu : updates.isEmpty <;> simp [hu, isAddComment]
  rw [h2]
  have h3 : ([PushAction.git ["add", "-A"] false,
      PushAction.git ["commit", "-m", "Pushed local changes"] false,
      PushAction.git ["fetch"] true,
      PushAction.git ["merge", "master"] false,
      PushAction.setRemoteMeta (uploadMeta env.newToken
        (get_locally_changed env.matcher env.consts env.localIgnore env.globalIgnore
          env.newFiles env.modifiedFiles env.isFile) s.meta),
      PushAction.git ["add", "-A"] true,
      PushAction.git ["commit", "-m", "Pulled remote changes"] true,
      PushAction.git ["push", "origin", "jira"] true].filter isAddComment) = [] := rfl
  rw [h3]
  by_cases hc : (get_new_comment true s.buffer).1 = ""
  · simp [hc, isAddComment]
  · have hb : ((get_new_comment true s.buffer).1 == "") = false := by
      rw [beq_eq_false_iff_ne]
      exact hc
    simp [hb, hc, isAddComment]

/-- C2 (amended): after committing the working tree, `push` runs `git fetch`
in the shadow tree, then `git merge master` in the working tree, then writes
and commits the remote-file metadata into the shadow tree, and finally pushes
the shadow tree into the `jira` tracking reference, in that order, as the
final segment of its trace. -/
theorem push_sync_tail (env : PushEnv) (s : PushState) :
    ∃ pre, (push env s).1
      = pre ++ [PushAction.git ["add", "-A"] false,
                PushAction.git ["commit", "-m", "Pushed local changes"] false,
                PushAction.git ["fetch"] true,
                PushAction.git ["merge", "master"] false,
                PushAction.setRemoteMeta (push env s).2.meta,
                PushAction.git ["add", "-A"] true,
                PushAction.git ["commit", "-m", "Pulled remote changes"] true,
                PushAction.git ["push", "origin", "jira"] true] := by
  refine ⟨statusGitActions
      ++ uploadActions s.attachments
          (get_locally_changed env.matcher env.consts env.localIgnore env.globalIgnore
            env.newFiles env.modifiedFiles env.isFile)
      ++ (if (get_new_comment true s.buffer).1 == "" then []
          else [PushAction.addComment (get_new_comment true s.buffer).1])
      ++ (if ((get_local_differing_fields env.originalFields env.localFields).map
              fun kv => (kv.1, kv.2.2)).isEmpty then []
          else [PushAction.updateFields
            ((get_local_differing_fields env.originalFields env.localFields).map
              fun kv => (kv.1, kv.2.2))]), ?_⟩
  unfold push
  simp only [List.append_assoc]

/-- C2 (counterexample): the claim as stated is false on the code: at a
concrete call, `push` never runs `git merge jira` in the working tree (the
merge argument is `master`), nor any `git fetch` there (the fetch runs in the
shadow tree). -/
theorem push_sync_tail_counterexample :
    PushAction.git ["merge", "jira"] false ∉ (push pushEnvEx (pushStateEx (some ""))).1 ∧
    PushAction.git ["fetch"] false ∉ (push pushEnvEx (pushStateEx (some ""))).1 := by
  refine ⟨by decide, by decide⟩

/-- C7: a pending-comment buffer whose content strips to the empty string
causes `push` to submit no comment; a buffer whose stripped content is
non-empty causes exactly one comment, with exactly that stripped text, to be
submitted. -/
theorem push_comment_policy (env : PushEnv) (s : PushState) (cbuf : String)
    (hb : s.buffer = some cbuf) :
    (pyStrip cbuf = "" → ((push env s).1.filter isAddComment) = []) ∧
    (pyStrip cbuf ≠ "" →
      ((push env s).1.filter isAddComment) = [PushAction.addComment (pyStrip cbuf)]) := by
  have ht := push_trace_comment_filter env s
  rw [hb] at ht
  constructor
  · intro hs
    rw [ht]
    simp [get_new_comment, hs]
  · intro hs
    rw [ht]
    simp [get_new_comment, hs]

/-- C7 witness: a whitespace-only buffer submits nothing; a real buffer
submits one comment with the stripped text. -/
theorem push_comment_policy_witness :
    ((push pushEnvEx (pushStateEx (some "   "))).1.filter isAddComment = []) ∧
    ((push pushEnvEx (pushStateEx (some " looks good "))).1.filter isAddComment
      = [PushAction.addComment "looks good"]) := by
  constructor
  · exact (push_comment_policy pushEnvEx (pushStateEx (some "   ")) "   " rfl).1 (by decide)
  · have hs : pyStrip " looks good " = "looks good" := by decide
    have h := (push_comment_policy pushEnvEx (pushStateEx (some " looks good "))
      " looks good " rfl).2 (by rw [hs]; decide)
    rw [hs] at h
    exact h

/-- C10: for every initial content of the pending-comment buffer file, the
buffer file is empty after `push` returns: `get_new_comment(clear=True)`
truncates the file before `push` tests the stripped content, so a
whitespace-only buffer is cleared even though no comment is submitted for
it. -/
theorem push_clears_comment_buffer (env : PushEnv) (s : PushState) (cbuf : String)
    (hb : s.buffer = some cbuf) :
    (push env s).2.buffer = some "" ∧
    (pyStrip cbuf = "" → ((push env s).1.filter isAddComment) = []) := by
  constructor
  · simp [push, get_new_comment, hb]
  · intro hs
    rw [push_trace_comment_filter env s]
    rw [hb]
    simp [get_new_comment, hs]

/-- C10 witness: a whitespace-only buffer is cleared and no comment is
submitted. -/
theorem push_clears_comment_buffer_witness :
    (push pushEnvEx (pushStateEx (some " \n "))).2.buffer = some "" ∧
    ((push pushEnvEx (pushStateEx (some " \n "))).1.filter isAddComment = []) := by
  have h := push_clears_comment_buffer pushEnvEx (pushStateEx (some " \n ")) " \n " rfl
  exact ⟨h.1, h.2 (by decide)⟩

theorem applyAtt_eq_of_name (f : String)
    (st : List (String × String) × List (String × String)) (a : Attachment)
    (h : a.filename = f) :
    applyAtt f st a = (dictSet f a.created st.1, dictSet f a.content st.2) := by
  simp [applyAtt, h]

theorem applyAtt_eq_of_ne (f : String)
    (st : List (String × String) × List (String × String)) (a : Attachment)
    (h : ¬ a.filename = f) : applyAtt f st a = st := by
  simp [applyAtt, h]

theorem processFilename_cons (atts : List Attachment) (a : Attachment) (f : String)
    (st : List (String × String) × List (String × String)) :
    processFilename (a :: atts) st f = processFilename atts (applyAtt f st a) f := rfl

theorem processFilename_eq (atts : List Attachment) (f : String)
    (st : List (String × String) × List (String × String)) :
    processFilename atts st f =
      match lastFor f atts with
      | none => st
      | some b => (dictSet f b.created st.1, dictSet f b.content st.2) := by
  induction atts generalizing st with
  | nil => rfl
  | cons a rest ih =>
    rw [processFilename_cons]
    by_cases hf : a.filename = f
    · rw [applyAtt_eq_of_name f st a hf]
      rw [ih]
      cases hl : lastFor f rest with
      | none => simp [lastFor, hl, hf]
      | some b => simp [lastFor, hl, dictSet_dictSet]
    · rw [applyAtt_eq_of_ne f st a hf]
      rw [ih]
      cases hl : lastFor f rest with
      | none => simp [lastFor, hl, hf]
      | some b => simp [lastFor, hl]

theorem lastFor_isSome_of_mem {atts : List Attachment} {a : Attachment} {f : String}
    (ha : a ∈ atts) (hf : a.filename = f) : ∃ b, lastFor f atts = some b := by
  induction atts with
  | nil => cases ha
  | cons x rest ih =>
    rcases List.mem_cons.1 ha with h | h
    · subst h
      cases hl : lastFor f rest with
      | some b => exact ⟨b, by simp [lastFor, hl]⟩
      | none => exact ⟨a, by simp [lastFor, hl, hf]⟩
    · obtain ⟨b, hb⟩ := ih h
      exact ⟨b, by simp [lastFor, hb]⟩

theorem downloads_cons (atts : List Attachment) (f : String) (rest : List String)
    (st : List (String × String) × List (String × String)) :
    downloads atts (f :: rest) st = downloads atts rest (processFilename atts st f) := rfl

theorem downloads_lookup_unchanged (atts : List Attachment) (changed : List String)
    (st : List (String × String) × List (String × String)) (k : String)
    (h : lastFor k atts = none ∨ k ∉ changed) :
    dictGet (downloads atts changed st).1 k = dictGet st.1 k ∧
    dictGet (downloads atts changed st).2 k = dictGet st.2 k := by
  induction changed generalizing st with
  | nil => exact ⟨rfl, rfl⟩
  | cons f rest ih =>
    rw [downloads_cons]
    have hrest : lastFor k atts = none ∨ k ∉ rest := by
      rcases h with h | h
      · exact Or.inl h
      · exact Or.inr fun hk => h (List.mem_cons_of_mem f hk)
    have hstep : dictGet (processFilename atts st f).1 k = dictGet st.1 k ∧
        dictGet (processFilename atts st f).2 k = dictGet st.2 k := by
      rw [processFilename_eq]
      by_cases hfk : f = k
      · subst hfk
        rcases h with h | h
        · rw [h]
          exact ⟨rfl, rfl⟩
        · exact absurd (List.mem_cons_self f rest) h
      · cases hl : lastFor f atts with
        | none => exact ⟨rfl, rfl⟩
        | some b =>
          exact ⟨dictGet_dictSet_other st.1 f k b.created fun hh => hfk hh.symm,
                 dictGet_dictSet_other st.2 f k b.content fun hh => hfk hh.symm⟩
    have hr := ih (processFilename atts st f) hrest
    exact ⟨hr.1.trans hstep.1, hr.2.trans hstep.2⟩

theorem downloads_lookup_last (atts : List Attachment) (changed : List String)
    (st : List (String × String) × List (String × String)) (k : String) (b : Attachment)
    (hk : k ∈ changed) (hl : lastFor k atts = some b) :
    dictGet (downloads atts changed st).1 k = some b.created ∧
    dictGet (downloads atts changed st).2 k = some b.content := by
  induction changed generalizing st with
  | nil => cases hk
  | cons f rest ih =>
    rw [downloads_cons]
    by_cases hmem : k ∈ rest
    · exact ih (processFilename atts st f) hmem
    · have hfk : k = f := by
        rcases List.mem_cons.1 hk with h | h
        · exact h
        · exact absurd h hmem
      subst hfk
      have hst : dictGet (processFilename atts st k).1 k = some b.created ∧
          dictGet (processFilename atts st k).2 k = some b.content := by
        rw [processFilename_eq, hl]
        exact ⟨dictGet_dictSet_same st.1 k b.created, dictGet_dictSet_same st.2 k b.content⟩
      have hun := downloads_lookup_unchanged atts rest (processFilename atts st k) k
        (Or.inr hmem)
      exact ⟨hun.1.trans hst.1, hun.2.trans hst.2⟩

theorem downloads_meta_fixpoint (atts : List Attachment) (changed : List String)
    (m fl : List (String × String))
    (h : ∀ f ∈ changed, ∃ b, lastFor f atts = some b ∧ dictGet m f = some b.created) :
    (downloads atts changed (m, fl)).1 = m := by
  induction changed generalizing fl with
  | nil => rfl
  | cons f rest ih =>
    rw [downloads_cons]
    obtain ⟨b, hb, hm⟩ := h f (List.mem_cons_self f rest)
    rw [processFilename_eq]
    rw [hb]
    show (downloads atts rest (dictSet f b.created m, dictSet f b.content fl)).1 = m
    rw [dictGet_dictSet_self hm]
    exact ih (dictSet f b.content fl) (fun g hg => h g (List.mem_cons_of_mem f hg))

theorem applyWrites_cons (kv : String × String) (rest : List (String × String))
    (files : List (String × String)) :
    applyWrites (kv :: rest) files = applyWrites rest (dictSet kv.1 kv.2 files) := rfl

theorem applyWrites_lookup (ws files : List (String × String)) (k : String) :
    dictGet (applyWrites ws files) k =
      match lastVal k ws with
      | some v => some v
      | none => dictGet files k := by
  induction ws generalizing files with
  | nil => rfl
  | cons kv rest ih =>
    rw [applyWrites_cons]
    rw [ih]
    by_cases hk : kv.1 = k
    · cases hl : lastVal k rest with
      | none => simp [lastVal, hl, hk, dictGet_dictSet_same]
      | some v => simp [lastVal, hl]
    · cases hl : lastVal k rest with
      | none =>
        simp only [lastVal, hl, hk]
        rw [dictGet_dictSet_other files kv.1 k kv.2 fun hh => hk hh.symm]
        simp [hk]
      | some v => simp [lastVal, hl]

theorem mapEquiv_iff (l1 l2 : List (String × String)) :
    mapEquiv l1 l2 = true ↔ ∀ k, dictGet l1 k = dictGet l2 k := by
  unfold mapEquiv
  rw [List.all_eq_true]
  constructor
  · intro h k
    by_cases h1 : k ∈ l1.map Prod.fst
    · exact eq_of_beq (h k (List.mem_append.2 (Or.inl h1)))
    · by_cases h2 : k ∈ l2.map Prod.fst
      · exact eq_of_beq (h k (List.mem_append.2 (Or.inr h2)))
      · rw [dictGet_eq_none_of_not_mem l1 k h1, dictGet_eq_none_of_not_mem l2 k h2]
  · intro h x _
    rw [h x]
    exact beq_self_eq_true _

theorem treeEquiv_iff (t1 t2 : List (String × String) × List (String × String)) :
    treeEquiv t1 t2 = true ↔
      (∀ k, dictGet t1.1 k = dictGet t2.1 k) ∧ (∀ k, dictGet t1.2 k = dictGet t2.2 k) := by
  unfold treeEquiv
  rw [Bool.and_eq_true, mapEquiv_iff, mapEquiv_iff]

theorem treeEquiv_refl (t : List (String × String) × List (String × String)) :
    treeEquiv t t = true :=
  (treeEquiv_iff t t).2 ⟨fun _ => rfl, fun _ => rfl⟩

theorem commitShadow_meta (x : FolderState) : (commitShadow x).meta = x.meta := by
  unfold commitShadow
  cases x.lastCommitted with
  | none => rfl
  | some t' =>
    by_cases h : treeEquiv (x.meta, x.shadowFiles) t' = true
    · simp [h]
    · simp [h]

theorem commitShadow_shadowFiles (x : FolderState) :
    (commitShadow x).shadowFiles = x.shadowFiles := by
  unfold commitShadow
  cases x.lastCommitted with
  | none => rfl
  | some t' =>
    by_cases h : treeEquiv (x.meta, x.shadowFiles) t' = true
    · simp [h]
    · simp [h]

theorem commitShadow_lastCommitted (x : FolderState) :
    ∃ t, (commitShadow x).lastCommitted = some t ∧
      treeEquiv (x.meta, x.shadowFiles) t = true := by
  unfold commitShadow
  cases hx : x.lastCommitted with
  | none => exact ⟨(x.meta, x.shadowFiles), rfl, treeEquiv_refl _⟩
  | some t' =>
    by_cases h : treeEquiv (x.meta, x.shadowFiles) t' = true
    · exact ⟨t', by simp [h, hx], h⟩
    · exact ⟨(x.meta, x.shadowFiles), by simp [h], treeEquiv_refl _⟩

theorem commitShadow_no_new (x : FolderState)
    (t : List (String × String) × List (String × String))
    (h : x.lastCommitted = some t)
    (he : treeEquiv (x.meta, x.shadowFiles) t = true) :
    (commitShadow x).shadowCommits = x.shadowCommits := by
  unfold commitShadow
  rw [h]
  simp [he]

theorem changed_again_last (matcher : String → String → Bool) (c : Constants)
    (rl rg : Option (List String)) (atts : List Attachment)
    (m fl : List (String × String)) (f : String)
    (hf : f ∈ get_remotely_changed matcher c rl rg
      (downloads atts (get_remotely_changed matcher c rl rg m atts) (m, fl)).1 atts) :
    ∃ b, lastFor f atts = some b ∧
      dictGet (downloads atts (get_remotely_changed matcher c rl rg m atts) (m, fl)).1 f
        = some b.created ∧
      dictGet (downloads atts (get_remotely_changed matcher c rl rg m atts) (m, fl)).2 f
        = some b.content := by
  rcases (mem_get_remotely_changed matcher c rl rg _ atts f).1 hf with
    ⟨a, ha, hfn, hnm, hne⟩
  obtain ⟨b, hb⟩ := lastFor_isSome_of_mem ha hfn
  by_cases hc1 : f ∈ get_remotely_changed matcher c rl rg m atts
  · have hl := downloads_lookup_last atts (get_remotely_changed matcher c rl rg m atts)
      (m, fl) f b hc1 hb
    exact ⟨b, hb, hl.1, hl.2⟩
  · have hu := downloads_lookup_unchanged atts (get_remotely_changed matcher c rl rg m atts)
      (m, fl) f (Or.inr hc1)
    rw [hu.1] at hne
    exact absurd ((mem_get_remotely_changed matcher c rl rg m atts f).2
      ⟨a, ha, hfn, hnm, hne⟩) hc1

theorem fetchContent_idempotent (matcher : String → String → Bool) (c : Constants)
    (rl rg : Option (List String)) (issue : IssueData) (m fl : List (String × String)) :
    (fetchContent matcher c rl rg issue
        (fetchContent matcher c rl rg issue m fl).1
        (fetchContent matcher c rl rg issue m fl).2).1
      = (fetchContent matcher c rl rg issue m fl).1 ∧
    ∀ k, dictGet (fetchContent matcher c rl rg issue
        (fetchContent matcher c rl rg issue m fl).1
        (fetchContent matcher c rl rg issue m fl).2).2 k
      = dictGet (fetchContent matcher c rl rg issue m fl).2 k := by
  constructor
  · show (downloads issue.attachments
        (get_remotely_changed matcher c rl rg
          (downloads issue.attachments
            (get_remotely_changed matcher c rl rg m issue.attachments) (m, fl)).1
          issue.attachments)
        ((downloads issue.attachments
            (get_remotely_changed matcher c rl rg m issue.attachments) (m, fl)).1,
         (fetchContent matcher c rl rg issue m fl).2)).1
      = (downloads issue.attachments
          (get_remotely_changed matcher c rl rg m issue.attachments) (m, fl)).1
    apply downloads_meta_fixpoint
    intro f hf
    obtain ⟨b, hb, hm1, _⟩ := changed_again_last matcher c rl rg issue.attachments m fl f hf
    exact ⟨b, hb, hm1⟩
  · intro k
    show dictGet (applyWrites (renderWrites c issue)
        (downloads issue.attachments
          (get_remotely_changed matcher c rl rg
            (downloads issue.attachments
              (get_remotely_changed matcher c rl rg m issue.attachments) (m, fl)).1
            issue.attachments)
          ((downloads issue.attachments
              (get_remotely_changed matcher c rl rg m issue.attachments) (m, fl)).1,
           applyWrites (renderWrites c issue)
             (downloads issue.attachments
               (get_remotely_changed matcher c rl rg m issue.attachments) (m, fl)).2)).2) k
      = dictGet (applyWrites (renderWrites c issue)
          (downloads issue.attachments
            (get_remotely_changed matcher c rl rg m issue.attachments) (m, fl)).2) k
    rw [applyWrites_lookup, applyWrites_lookup]
    cases hlv : lastVal k (renderWrites c issue) with
    | some v => rfl
    | none =>
      show dictGet (downloads issue.attachments
          (get_remotely_changed matcher c rl rg
            (downloads issue.attachments
              (get_remotely_changed matcher c rl rg m issue.attachments) (m, fl)).1
            issue.attachments)
          ((downloads issue.attachments
              (get_remotely_changed matcher c rl rg m issue.attachments) (m, fl)).1,
           applyWrites (renderWrites c issue)
             (downloads issue.attachments
               (get_remotely_changed matcher c rl rg m issue.attachments) (m, fl)).2)).2 k
        = dictGet (downloads issue.attachments
            (get_remotely_changed matcher c rl rg m issue.attachments) (m, fl)).2 k
      by_cases hc2 : k ∈ get_remotely_changed matcher c rl rg
          (downloads issue.attachments
            (get_remotely_changed matcher c rl rg m issue.attachments) (m, fl)).1
          issue.attachments
      · obtain ⟨b, hb, _, hcont⟩ :=
          changed_again_last matcher c rl rg issue.attachments m fl k hc2
        rw [(downloads_lookup_last issue.attachments _ _ k b hc2 hb).2, hcont]
      · rw [(downloads_lookup_unchanged issue.attachments _ _ k (Or.inr hc2)).2]
        show dictGet (applyWrites (renderWrites c issue)
            (downloads issue.attachments
              (get_remotely_changed matcher c rl rg m issue.attachments) (m, fl)).2) k
          = _
        rw [applyWrites_lookup, hlv]

/-- C3: calling `fetch` twice in a row with no intervening remote change (the
same remote issue both times) creates no new shadow commit on the second call
— the empty-diff commit is a tolerated no-op — and leaves the remote-file
metadata mapping equal to its value after the first call. -/
theorem fetch_idempotent (matcher : String → String → Bool) (c : Constants)
    (rl rg : Option (List String)) (issue : IssueData) (s : FolderState) :
    (fetch matcher c rl rg issue (fetch matcher c rl rg issue s)).shadowCommits
        = (fetch matcher c rl rg issue s).shadowCommits ∧
    (fetch matcher c rl rg issue (fetch matcher c rl rg issue s)).meta
        = (fetch matcher c rl rg issue s).meta := by
  have hfi := fetchContent_idempotent matcher c rl rg issue s.meta s.shadowFiles
  have hS1meta : (fetch matcher c rl rg issue s).meta
      = (fetchContent matcher c rl rg issue s.meta s.shadowFiles).1 :=
    commitShadow_meta
      { s with meta := (fetchContent matcher c rl rg issue s.meta s.shadowFiles).1,
               shadowFiles := (fetchContent matcher c rl rg issue s.meta s.shadowFiles).2,
               cachedIssue := some issue }
  have hS1files : (fetch matcher c rl rg issue s).shadowFiles
      = (fetchContent matcher c rl rg issue s.meta s.shadowFiles).2 :=
    commitShadow_shadowFiles
      { s with meta := (fetchContent matcher c rl rg issue s.meta s.shadowFiles).1,
               shadowFiles := (fetchContent matcher c rl rg issue s.meta s.shadowFiles).2,
               cachedIssue := some issue }
  have h2meta : (fetch matcher c rl rg issue (fetch matcher c rl rg issue s)).meta
      = (fetchContent matcher c rl rg issue
          (fetch matcher c rl rg issue s).meta
          (fetch matcher c rl rg issue s).shadowFiles).1 :=
    commitShadow_meta
      { (fetch matcher c rl rg issue s) with
          meta := (fetchContent matcher c rl rg issue
            (fetch matcher c rl rg issue s).meta
            (fetch matcher c rl rg issue s).shadowFiles).1,
          shadowFiles := (fetchContent matcher c rl rg issue
            (fetch matcher c rl rg issue s).meta
            (fetch matcher c rl rg issue s).shadowFiles).2,
          cachedIssue := some issue }
  rw [hS1meta, hS1files] at h2meta
  rw [hfi.1] at h2meta
  refine ⟨?_, h2meta.trans hS1meta.symm⟩
  obtain ⟨t, hlast, hequiv⟩ := commitShadow_lastCommitted
    { s with meta := (fetchContent matcher c rl rg issue s.meta s.shadowFiles).1,
             shadowFiles := (fetchContent matcher c rl rg issue s.meta s.shadowFiles).2,
             cachedIssue := some issue }
  have hx2last : ({ (fetch matcher c rl rg issue s) with
      meta := (fetchContent matcher c rl rg issue
        (fetch matcher c rl rg issue s).meta
        (fetch matcher c rl rg issue s).shadowFiles).1,
      shadowFiles := (fetchContent matcher c rl rg issue
        (fetch matcher c rl rg issue s).meta
        (fetch matcher c rl rg issue s).shadowFiles).2,
      cachedIssue := some issue } : FolderState).lastCommitted = some t := hlast
  have hpt := (treeEquiv_iff
    ((fetchContent matcher c rl rg issue s.meta s.shadowFiles).1,
     (fetchContent matcher c rl rg issue s.meta s.shadowFiles).2) t).1 hequiv
  have hx2equiv : treeEquiv
      ((fetchContent matcher c rl rg issue
          (fetch matcher c rl rg issue s).meta
          (fetch matcher c rl rg issue s).shadowFiles).1,
       (fetchContent matcher c rl rg issue
          (fetch matcher c rl rg issue s).meta
          (fetch matcher c rl rg issue s).shadowFiles).2) t = true := by
    rw [hS1meta, hS1files]
    apply (treeEquiv_iff _ t).2
    constructor
    · intro k
      rw [hfi.1]
      exact hpt.1 k
    · intro k
      rw [hfi.2 k]
      exact hpt.2 k
  exact commitShadow_no_new
    { (fetch matcher c rl rg issue s) with
        meta := (fetchContent matcher c rl rg issue
          (fetch matcher c rl rg issue s).meta
          (fetch matcher c rl rg issue s).shadowFiles).1,
        shadowFiles := (fetchContent matcher c rl rg issue
          (fetch matcher c rl rg issue s).meta
          (fetch matcher c rl rg issue s).shadowFiles).2,
        cachedIssue := some issue } t hx2last hx2equiv

end Jirafs
